import Mathlib

/-!
Verification of the chat-backend event-distribution core
(`src/chat-backend/src/main.rs`).

The development shallowly embeds, from the Rust source:
  * `Users`            — the concurrent user registry (`Arc<RwLock<HashSet<String>>>`),
  * `Messages`         — the indexed message log (`Arc<RwLock<Vec<_>>>` plus an
                         `AtomicUsize` counter),
  * `Channel`          — the semantics of the `tokio::sync::broadcast` channel that
                         `Broadcast` wraps (ring of the last `capacity` values, one
                         cursor per receiver, lag on overflow, send error when no
                         receiver is live),
  * the request handlers `signin` and `message_send`,
  * the per-connection loop `handle_socket` as a step function over select branches.

Concurrency is made explicit: `Messages::send` consists of two separately atomic
steps (the `fetch_add` on the counter and the `push` under the write lock), and an
interleaving of N concurrent calls is an arbitrary schedule of those steps.
Rust's stable sorts (`Vec::sort`, `Vec::sort_by_key`) are modelled with
`List.insertionSort`, which is also stable, over the same orderings (byte/codepoint
order on strings, `≤` on indices).
-/

namespace Chat

/-- Lexicographic `≤` on char lists by codepoint, matching the order `Vec::sort`
uses on `String` (byte order of UTF-8 agrees with codepoint order). -/
def lexLe : List Char → List Char → Bool
  | [], _ => true
  | _ :: _, [] => false
  | a :: as, b :: bs =>
    if a.toNat < b.toNat then true
    else if b.toNat < a.toNat then false
    else lexLe as bs

/-- String comparison used by `results.sort()` in `Users::list`. -/
def strLe (a b : String) : Bool := lexLe a.data b.data

theorem lexLe_total (a b : List Char) : lexLe a b = true ∨ lexLe b a = true := by
  induction a generalizing b with
  | nil => left; rfl
  | cons x xs ih =>
    cases b with
    | nil => right; rfl
    | cons y ys =>
      rcases Nat.lt_trichotomy x.toNat y.toNat with h | h | h
      · left; simp [lexLe, h]
      · rcases ih ys with h2 | h2
        · left; simp [lexLe, h, h2]
        · right; simp [lexLe, h, h2]
      · right; simp [lexLe, h, Nat.lt_asymm h]

theorem lexLe_trans (a b c : List Char) (h1 : lexLe a b = true) (h2 : lexLe b c = true) :
    lexLe a c = true := by
  induction a generalizing b c with
  | nil => rfl
  | cons x xs ih =>
    cases b with
    | nil => simp [lexLe] at h1
    | cons y ys =>
      cases c with
      | nil => simp [lexLe] at h2
      | cons z zs =>
        rcases Nat.lt_trichotomy x.toNat y.toNat with hxy | hxy | hxy
        · rcases Nat.lt_trichotomy y.toNat z.toNat with hyz | hyz | hyz
          · simp [lexLe, Nat.lt_trans hxy hyz]
          · simp [lexLe, hyz ▸ hxy]
          · simp [lexLe, hyz, Nat.lt_asymm hyz] at h2
        · rcases Nat.lt_trichotomy y.toNat z.toNat with hyz | hyz | hyz
          · simp [lexLe, hxy ▸ hyz]
          · have hxz : x.toNat = z.toNat := hxy.trans hyz
            simp only [lexLe, hxy, hyz, lt_irrefl, if_false, hxz] at h1 h2 ⊢
            exact ih ys zs h1 h2
          · simp [lexLe, hyz, Nat.lt_asymm hyz] at h2
        · simp [lexLe, hxy, Nat.lt_asymm hxy] at h1

instance : IsTotal String (fun a b => strLe a b = true) :=
  ⟨fun a b => lexLe_total a.data b.data⟩

instance : IsTrans String (fun a b => strLe a b = true) :=
  ⟨fun a b c => lexLe_trans a.data b.data c.data⟩

/-- The user registry `Users { data: Arc<RwLock<HashSet<String>>> }`. The hash
set is modelled as a duplicate-free list in insertion order; `list` sorts, so
only membership is observable. -/
structure Users where
  data : List String
deriving DecidableEq, Repr

/-- `Users::new`. -/
def Users.new : Users := ⟨[]⟩

/-- `Users::add_user`: `data.insert(user)` on a `HashSet` inserts if absent and
is a no-op if the name is already present. -/
def Users.add_user (u : Users) (user : String) : Users :=
  if user ∈ u.data then u else ⟨u.data ++ [user]⟩

/-- `Users::list`: collect the names and `results.sort()`. -/
def Users.list (u : Users) : List String :=
  u.data.insertionSort (fun a b => strLe a b = true)

/-- `MessagePayload { index, user, message }`. The `Arc<String>` wrappers share
immutable strings and are transparent to value semantics. -/
structure MessagePayload where
  index : Nat
  user : String
  message : String
deriving DecidableEq, Repr

/-- The message log `Messages { messages: Arc<RwLock<Vec<MessagePayload>>>,
counter: Arc<AtomicUsize> }`. The `usize` counter is modelled as `Nat`; the
wrap-around of `fetch_add` at `2^64` is out of reach of any run considered. -/
structure Messages where
  messages : List MessagePayload
  counter : Nat
deriving DecidableEq, Repr

/-- `Messages::new`. -/
def Messages.new : Messages := ⟨[], 0⟩

/-- The first atomic step of `Messages::send`: `counter.fetch_add(1, SeqCst)`,
returning the old value. -/
def Messages.fetchIndex (m : Messages) : Nat × Messages :=
  (m.counter, { m with counter := m.counter + 1 })

/-- The second atomic step of `Messages::send`: `messages.push(payload)` under
the write lock. -/
def Messages.push (m : Messages) (p : MessagePayload) : Messages :=
  { m with messages := m.messages ++ [p] }

/-- `Messages::send` as executed by a single caller with no interference: the
two atomic steps in sequence. -/
def Messages.send (m : Messages) (user message : String) : MessagePayload × Messages :=
  let (index, m1) := m.fetchIndex
  let payload : MessagePayload := ⟨index, user, message⟩
  (payload, m1.push payload)

instance : IsTotal MessagePayload (fun a b => a.index ≤ b.index) :=
  ⟨fun a b => Nat.le_total a.index b.index⟩

instance : IsTrans MessagePayload (fun a b => a.index ≤ b.index) :=
  ⟨fun _ _ _ => Nat.le_trans⟩

/-- `Messages::list`: clone the stored vector and `sort_by_key(|m| m.index)`
(a stable sort). -/
def Messages.list (m : Messages) : List MessagePayload :=
  m.messages.insertionSort (fun a b => a.index ≤ b.index)

/-- `SignInResponse { user }`. -/
structure SignInResponse where
  user : String
deriving DecidableEq, Repr

/-- `BroadcastPayload`: the event union fanned out over the broadcast channel. -/
inductive BroadcastPayload where
  | message (m : MessagePayload)
  | signIn (s : SignInResponse)
deriving DecidableEq, Repr

/-- `broadcast::error::RecvError`: a receiver either lagged (`n` skipped values)
or found the channel closed. -/
inductive RecvError where
  | lagged (n : Nat)
  | closed
deriving DecidableEq, Repr

/-- Semantics of the `tokio::sync::broadcast` channel that `Broadcast` wraps.
`history` is every value ever sent, oldest first; only the last `capacity` of
them are still held by the ring buffer. Each live receiver is a cursor into
`history` (`none` marks a dropped receiver, so indices of the others are
stable). `senderClosed` records whether every `Sender` was dropped. -/
structure Channel where
  capacity : Nat
  history : List BroadcastPayload
  receivers : List (Option Nat)
  senderClosed : Bool
deriving DecidableEq, Repr

/-- Number of live receivers of the channel. -/
def Channel.liveCount (ch : Channel) : Nat := ch.receivers.countP Option.isSome

/-- `Sender::send`: fails (returning the value) when no receiver is live;
otherwise appends to the ring, overwriting the slot of the oldest retained
value, and returns immediately — it never waits on receivers. -/
def Channel.send (ch : Channel) (v : BroadcastPayload) : Channel × Bool :=
  if ch.liveCount = 0 then (ch, false)
  else ({ ch with history := ch.history ++ [v] }, true)

/-- `Sender::subscribe`: a fresh receiver whose cursor starts at the current
tail, so it observes only values sent from this moment on. -/
def Channel.subscribe (ch : Channel) : Channel × Nat :=
  ({ ch with receivers := ch.receivers ++ [some ch.history.length] }, ch.receivers.length)

/-- Dropping a `Receiver` (end of its scope). -/
def Channel.dropReceiver (ch : Channel) (r : Nat) : Channel :=
  { ch with receivers := ch.receivers.set r none }

/-- `Receiver::recv` for receiver `r`. `none` means the call would suspend
(no value ready). A cursor more than `capacity` behind the tail has been
overrun: the oldest unread values are gone, the cursor jumps to the oldest
retained value and `Lagged` reports how many were skipped. Otherwise the value
under the cursor is returned and the cursor advances. -/
def Channel.recv (ch : Channel) (r : Nat) : Channel × Option (Except RecvError BroadcastPayload) :=
  match ch.receivers[r]? with
  | some (some pos) =>
    if h : pos < ch.history.length then
      if ch.capacity < ch.history.length - pos then
        ({ ch with receivers := ch.receivers.set r (some (ch.history.length - ch.capacity)) },
         some (.error (.lagged (ch.history.length - ch.capacity - pos))))
      else
        ({ ch with receivers := ch.receivers.set r (some (pos + 1)) },
         some (.ok (ch.history.get ⟨pos, h⟩)))
    else
      if ch.senderClosed then (ch, some (.error .closed)) else (ch, none)
  | _ => (ch, none)

/-- `ChatError` (the `NotFound` and the two broadcast variants). -/
inductive ChatError where
  | notFound
  | sendError
  | recvError
deriving DecidableEq, Repr

/-- Capacity of the channel made by `broadcast::channel(1000)`: tokio rounds
the requested capacity up to the next power of two. -/
def broadcastCapacity : Nat := 1024

/-- `Broadcast { tx: Sender<BroadcastPayload> }`. -/
structure Broadcast where
  tx : Channel
deriving DecidableEq, Repr

/-- `Broadcast::new`: `broadcast::channel(1000)` returns the sender together
with an initial receiver (held by `log_broadcast` in `main`). -/
def Broadcast.new : Broadcast × Nat :=
  let ch0 : Channel :=
    { capacity := broadcastCapacity, history := [], receivers := [], senderClosed := false }
  let (ch1, rx) := ch0.subscribe
  (⟨ch1⟩, rx)

/-- `Broadcast::sign_in`: `self.tx.send(BroadcastPayload::SignIn(response))?`. -/
def Broadcast.sign_in (b : Broadcast) (response : SignInResponse) :
    Broadcast × Except ChatError Unit :=
  let (ch, ok) := b.tx.send (.signIn response)
  (⟨ch⟩, if ok then .ok () else .error .sendError)

/-- `Broadcast::send_message`: `self.tx.send(BroadcastPayload::Message(response))?`. -/
def Broadcast.send_message (b : Broadcast) (response : MessagePayload) :
    Broadcast × Except ChatError Unit :=
  let (ch, ok) := b.tx.send (.message response)
  (⟨ch⟩, if ok then .ok () else .error .sendError)

/-- `Broadcast::subscribe`: `self.tx.subscribe()`. -/
def Broadcast.subscribe (b : Broadcast) : Broadcast × Nat :=
  let (ch, r) := b.tx.subscribe
  (⟨ch⟩, r)

/-- `SignInRequest { user }`. -/
structure SignInRequest where
  user : String
deriving DecidableEq, Repr

/-- `MessageSendRequest { user, message }`. -/
structure MessageSendRequest where
  user : String
  message : String
deriving DecidableEq, Repr

/-- `MessageSendResponse { index }`. -/
structure MessageSendResponse where
  index : Nat
deriving DecidableEq, Repr

/-- The `signin` handler: insert into the registry, then publish; `?` on the
publish propagates its error after the insert already happened. -/
def signin (request : SignInRequest) (users : Users) (broadcast : Broadcast) :
    Users × Broadcast × Except ChatError SignInResponse :=
  let users' := users.add_user request.user
  let response : SignInResponse := ⟨request.user⟩
  let (b', r) := broadcast.sign_in response
  match r with
  | .ok _ => (users', b', .ok response)
  | .error e => (users', b', .error e)

/-- The `message_send` handler: append to the log, then publish; `?` on the
publish propagates its error after the append already happened. -/
def message_send (request : MessageSendRequest) (messages : Messages) (broadcast : Broadcast) :
    Messages × Broadcast × Except ChatError MessageSendResponse :=
  let (payload, messages') := messages.send request.user request.message
  let (b', r) := broadcast.send_message payload
  match r with
  | .ok _ => (messages', b', .ok ⟨payload.index⟩)
  | .error e => (messages', b', .error e)

/-- Frames `handle_socket` can read from its websocket
(`axum::extract::ws::Message`). -/
inductive WsIncoming where
  | close
  | text (s : String)
  | binary
  | ping
  | pong
deriving DecidableEq, Repr

/-- Result of `socket.recv()`: `Some(Ok(msg))`, `Some(Err(e))`, or `None`
(end of stream). -/
inductive InboundResult where
  | msg (m : WsIncoming)
  | readErr
  | disconnected
deriving DecidableEq, Repr

/-- Outcome of `socket.send(..)` on the outbound side. -/
inductive WriteOutcome where
  | ok
  | failed
deriving DecidableEq, Repr

/-- Which arm of the `tokio::select!` in `handle_socket` fires, together with
the outcome the environment gives the write that the hub arm performs if it
has a payload to forward. -/
inductive SelectBranch where
  | hub (w : WriteOutcome)
  | inbound (i : InboundResult)
deriving DecidableEq, Repr

/-- Status of one `handle_socket` task. `closed` is a normal `return` from the
loop; `faulted` is the panic of the `expect` on a failed outbound write, which
tokio confines to this task. -/
inductive SessionStatus where
  | active
  | closed
  | faulted
deriving DecidableEq, Repr

/-- Shared state a session task can reach: the hub channel plus the registry
and the log (which `handle_socket` never touches). -/
structure SessionWorld where
  channel : Channel
  users : Users
  messages : Messages
deriving DecidableEq, Repr

/-- One iteration of the `handle_socket` loop for the session subscribed as
receiver `r`. The hub arm performs `rx.recv()`: an `Ok` payload is serialized
and written (a failed write panics via `expect`, ending the task); any recv
error is only logged (`dbg!`) and the loop continues. The inbound arm returns
(closing the session) on a close frame, a read error, or end of stream, and
ignores every other frame. -/
def sessionStep (w : SessionWorld) (r : Nat) (b : SelectBranch) :
    SessionWorld × SessionStatus :=
  match b with
  | .hub wr =>
    let (ch', res) := w.channel.recv r
    let w' : SessionWorld := { w with channel := ch' }
    match res with
    | some (.ok _) =>
      match wr with
      | .ok => (w', .active)
      | .failed => (w', .faulted)
    | some (.error _) => (w', .active)
    | none => (w', .active)
  | .inbound i =>
    match i with
    | .msg .close => (w, .closed)
    | .msg (.text _) => (w, .active)
    | .msg .binary => (w, .active)
    | .msg .ping => (w, .active)
    | .msg .pong => (w, .active)
    | .readErr => (w, .closed)
    | .disconnected => (w, .closed)

/-- The `handle_socket` loop run over a list of select outcomes: once the task
is no longer `active`, nothing further is serviced. -/
def sessionRun (r : Nat) : SessionWorld × SessionStatus → List SelectBranch →
    SessionWorld × SessionStatus
  | s, [] => s
  | (w, st), b :: bs =>
    match st with
    | .active => sessionRun r (sessionStep w r b) bs
    | _ => (w, st)

/-- An atomic action of one of N concurrent `Messages::send` calls: call `i`
first performs its `fetch_add` on the counter, then its `push` under the write
lock. An interleaving is an arbitrary list of such actions. -/
inductive Act where
  | fetch (i : Nat)
  | push (i : Nat)
deriving DecidableEq, Repr

/-- Call ids of the fetch actions of a schedule, in schedule order. -/
def fetchIds : List Act → List Nat
  | [] => []
  | .fetch i :: rest => i :: fetchIds rest
  | .push _ :: rest => fetchIds rest

/-- Call ids of the push actions of a schedule, in schedule order. -/
def pushIds : List Act → List Nat
  | [] => []
  | .fetch _ :: rest => pushIds rest
  | .push i :: rest => i :: pushIds rest

/-- State of N concurrent `Messages::send` calls over the shared log:
`fetched i` is the index call `i` obtained from `fetch_add` (if it has run),
`pushed i` whether its push has run. -/
structure Exec where
  log : Messages
  fetched : Nat → Option Nat
  pushed : Nat → Bool

/-- Execute one atomic action. A `fetch` of a call that already fetched, or a
`push` of a call that has not fetched or already pushed, does not occur in any
real interleaving and is ignored. -/
def Exec.step (calls : List MessageSendRequest) (e : Exec) : Act → Exec
  | .fetch i =>
    match e.fetched i with
    | none =>
      let (idx, log') := e.log.fetchIndex
      { log := log'
        fetched := fun j => if j = i then some idx else e.fetched j
        pushed := e.pushed }
    | some _ => e
  | .push i =>
    match e.fetched i, e.pushed i, calls[i]? with
    | some idx, false, some c =>
      { log := e.log.push ⟨idx, c.user, c.message⟩
        fetched := e.fetched
        pushed := fun j => if j = i then true else e.pushed j }
    | _, _, _ => e

/-- Execute a whole schedule. -/
def Exec.run (calls : List MessageSendRequest) (e : Exec) : List Act → Exec
  | [] => e
  | a :: acts => Exec.run calls (e.step calls a) acts

/-- Initial execution state over a given log: no call has fetched or pushed. -/
def Exec.init (log : Messages) : Exec :=
  { log := log, fetched := fun _ => none, pushed := fun _ => false }

/-- The payload call `i` ends up pushing, read off from a fetched-index map. -/
def callPayload (calls : List MessageSendRequest) (f : Nat → Option Nat) (i : Nat) :
    MessagePayload :=
  { index := (f i).getD 0
    user := ((calls[i]?).getD ⟨"", ""⟩).user
    message := ((calls[i]?).getD ⟨"", ""⟩).message }

/-- Every push of a schedule is preceded by the fetch of the same call. -/
def FetchFirst (acts : List Act) : Prop :=
  ∀ (k i : Nat), acts[k]? = some (Act.push i) →
    ∃ j : Nat, j < k ∧ acts[j]? = some (Act.fetch i)

/-- Executable check for `FetchFirst`. -/
def fetchFirstB (acts : List Act) : Bool :=
  (List.range acts.length).all fun k =>
    match acts[k]? with
    | some (.push i) => decide (Act.fetch i ∈ acts.take k)
    | _ => true

theorem fetchFirst_of_fetchFirstB (acts : List Act) (h : fetchFirstB acts = true) :
    FetchFirst acts := by
  intro k i hk
  have hklt : k < acts.length := by
    by_contra hge
    rw [List.getElem?_eq_none (Nat.le_of_not_lt hge)] at hk
    exact Option.noConfusion hk
  have := List.all_eq_true.mp h k (List.mem_range.mpr hklt)
  rw [hk] at this
  have hmem : Act.fetch i ∈ acts.take k := of_decide_eq_true this
  rcases List.mem_iff_getElem?.mp hmem with ⟨j, hj⟩
  have hjk : j < k := by
    by_contra hge
    rw [List.getElem?_eq_none] at hj
    · exact Option.noConfusion hj
    · calc (acts.take k).length ≤ k := by
            simp [List.length_take_le]
        _ ≤ j := Nat.le_of_not_lt hge
  refine ⟨j, hjk, ?_⟩
  rw [← hj, List.getElem?_take, if_pos hjk]

/-- An event trace against the hub channel: sends by arbitrary publishers and
recv calls by arbitrary receivers. -/
inductive HubOp where
  | send (v : BroadcastPayload)
  | recv (q : Nat)
deriving DecidableEq, Repr

/-- Values published in a trace, in publish order. -/
def sentValues : List HubOp → List BroadcastPayload
  | [] => []
  | .send v :: ops => v :: sentValues ops
  | .recv _ :: ops => sentValues ops

/-- Run a trace, collecting the outcomes receiver `r` gets from its recv
calls, in order. -/
def runTrace (r : Nat) (ch : Channel) :
    List HubOp → Channel × List (Option (Except RecvError BroadcastPayload))
  | [] => (ch, [])
  | .send v :: ops => runTrace r (ch.send v).1 ops
  | .recv q :: ops =>
    let (ch', res) := ch.recv q
    let (chF, rest) := runTrace r ch' ops
    (chF, if q = r then res :: rest else rest)

/-- Payloads of the successful receives among a list of recv outcomes. -/
def oks : List (Option (Except RecvError BroadcastPayload)) → List BroadcastPayload
  | [] => []
  | some (.ok v) :: rest => v :: oks rest
  | some (.error _) :: rest => oks rest
  | none :: rest => oks rest

/-- No outcome in the list reports a lag (the receiver never fell behind). -/
def LagFree (outs : List (Option (Except RecvError BroadcastPayload))) : Prop :=
  ∀ n, some (Except.error (RecvError.lagged n)) ∉ outs

theorem Channel.liveCount_ne_zero {ch : Channel} {r pos : Nat}
    (h : ch.receivers[r]? = some (some pos)) : ch.liveCount ≠ 0 := by
  have hmem : (some pos : Option Nat) ∈ ch.receivers := by
    rcases List.getElem?_eq_some.mp h with ⟨hlt, he⟩
    exact he ▸ List.getElem_mem hlt
  have : 0 < ch.liveCount :=
    List.countP_pos_iff.mpr ⟨some pos, hmem, rfl⟩
  omega

theorem Channel.send_of_live {ch : Channel} (v : BroadcastPayload)
    (h : ch.liveCount ≠ 0) :
    ch.send v = ({ ch with history := ch.history ++ [v] }, true) := by
  simp [Channel.send, h]

theorem Channel.recv_history (ch : Channel) (q : Nat) :
    (ch.recv q).1.history = ch.history := by
  unfold Channel.recv
  rcases hq : ch.receivers[q]? with _ | p
  · rfl
  · rcases p with _ | pos
    · rfl
    · by_cases h1 : pos < ch.history.length
      · by_cases h2 : ch.capacity < ch.history.length - pos
        · simp [h1, h2]
        · simp [h1, h2]
      · by_cases h3 : ch.senderClosed
        · simp [h1, h3]
        · simp [h1, h3]

theorem Channel.recv_capacity (ch : Channel) (q : Nat) :
    (ch.recv q).1.capacity = ch.capacity := by
  unfold Channel.recv
  rcases hq : ch.receivers[q]? with _ | p
  · rfl
  · rcases p with _ | pos
    · rfl
    · by_cases h1 : pos < ch.history.length
      · by_cases h2 : ch.capacity < ch.history.length - pos
        · simp [h1, h2]
        · simp [h1, h2]
      · by_cases h3 : ch.senderClosed
        · simp [h1, h3]
        · simp [h1, h3]

theorem Channel.recv_receivers_other {ch : Channel} {q r : Nat} (hne : q ≠ r) :
    (ch.recv q).1.receivers[r]? = ch.receivers[r]? := by
  unfold Channel.recv
  rcases hq : ch.receivers[q]? with _ | p
  · rfl
  · rcases p with _ | pos
    · rfl
    · by_cases h1 : pos < ch.history.length
      · by_cases h2 : ch.capacity < ch.history.length - pos
        · simp [h1, h2, List.getElem?_set_ne hne]
        · simp [h1, h2, List.getElem?_set_ne hne]
      · by_cases h3 : ch.senderClosed
        · simp [h1, h3]
        · simp [h1, h3]

theorem Channel.recv_lag {ch : Channel} {r pos : Nat}
    (hr : ch.receivers[r]? = some (some pos))
    (hlag : ch.capacity + pos < ch.history.length) :
    ch.recv r =
      ({ ch with receivers := ch.receivers.set r (some (ch.history.length - ch.capacity)) },
       some (.error (.lagged (ch.history.length - ch.capacity - pos)))) := by
  unfold Channel.recv
  rw [hr]
  have h1 : pos < ch.history.length := by omega
  have h2 : ch.capacity < ch.history.length - pos := by omega
  simp [h1, h2]

theorem Channel.recv_ok {ch : Channel} {r pos : Nat}
    (hr : ch.receivers[r]? = some (some pos))
    (hlt : pos < ch.history.length)
    (hwin : ch.history.length - pos ≤ ch.capacity) :
    ch.recv r =
      ({ ch with receivers := ch.receivers.set r (some (pos + 1)) },
       some (.ok (ch.history.get ⟨pos, hlt⟩))) := by
  unfold Channel.recv
  rw [hr]
  have h2 : ¬ ch.capacity < ch.history.length - pos := by omega
  simp [hlt, h2]

theorem Channel.recv_pending {ch : Channel} {r pos : Nat}
    (hr : ch.receivers[r]? = some (some pos))
    (hge : ¬ pos < ch.history.length)
    (hopen : ch.senderClosed = false) :
    ch.recv r = (ch, none) := by
  unfold Channel.recv
  rw [hr]
  simp [hge, hopen]

theorem Channel.recv_closed {ch : Channel} {r pos : Nat}
    (hr : ch.receivers[r]? = some (some pos))
    (hge : ¬ pos < ch.history.length)
    (hcl : ch.senderClosed = true) :
    ch.recv r = (ch, some (.error .closed)) := by
  unfold Channel.recv
  rw [hr]
  simp [hge, hcl]

/-- C2: claimed that publish succeeds when zero subscribers exist. It does
not: `tokio::sync::broadcast::Sender::send` returns `Err(SendError(v))` when
no receiver is live, and `Broadcast::sign_in` surfaces it as
`ChatError::SendError`. Concretely, dropping the sole receiver returned by
`Broadcast::new` and then publishing yields an error, not success. -/
theorem c2_counterexample :
    (Broadcast.mk ((Broadcast.new).1.tx.dropReceiver (Broadcast.new).2)).tx.liveCount = 0 ∧
    ((Broadcast.mk ((Broadcast.new).1.tx.dropReceiver (Broadcast.new).2)).sign_in
        ⟨"adam"⟩).2 = Except.error ChatError.sendError ∧
    ((Broadcast.mk ((Broadcast.new).1.tx.dropReceiver (Broadcast.new).2)).send_message
        ⟨0, "adam", "hi"⟩).2 = Except.error ChatError.sendError :=
  ⟨rfl, rfl, rfl⟩

/-- C2 (amended): publishing with zero live receivers returns an error
(`SendError`, surfaced as `ChatError::SendError`) and the event is dropped;
with at least one live receiver — in deployment `main` always holds the
`log_broadcast` receiver — publish succeeds and appends the event, no matter
whether any subscriber ever consumes it. -/
theorem c2_publish_zero_subscribers (b : Broadcast) (s : SignInResponse) (m : MessagePayload) :
    (0 < b.tx.liveCount →
      (b.sign_in s).2 = Except.ok () ∧
      (b.sign_in s).1.tx.history = b.tx.history ++ [BroadcastPayload.signIn s] ∧
      (b.send_message m).2 = Except.ok () ∧
      (b.send_message m).1.tx.history = b.tx.history ++ [BroadcastPayload.message m]) ∧
    (b.tx.liveCount = 0 →
      (b.sign_in s).2 = Except.error ChatError.sendError ∧
      (b.sign_in s).1 = b ∧
      (b.send_message m).2 = Except.error ChatError.sendError ∧
      (b.send_message m).1 = b) := by
  constructor
  · intro h
    have hne : b.tx.liveCount ≠ 0 := by omega
    simp [Broadcast.sign_in, Broadcast.send_message, Channel.send_of_live _ hne]
  · intro h
    simp [Broadcast.sign_in, Broadcast.send_message, Channel.send, h]

/-- C2 witness: the amended theorem applied to the freshly created hub, whose
initial receiver is live. -/
theorem c2_witness :
    0 < (Broadcast.new).1.tx.liveCount ∧
    ((Broadcast.new).1.sign_in ⟨"adam"⟩).2 = Except.ok () := by
  have h := (c2_publish_zero_subscribers (Broadcast.new).1 ⟨"adam"⟩ ⟨0, "adam", "hi"⟩).1
  exact ⟨by decide, (h (by decide)).1⟩

/-- C5: each subscription is bounded by the ring capacity (1024, the
requested 1000 rounded up to a power of two); a subscriber that fell more
than `capacity` behind gets `Lagged` on its next receive with the oldest
unread values skipped for it alone (history and every other cursor
untouched); a subscriber within the window receives the next value in order;
and `send` returns without ever touching or waiting on any receiver cursor. -/
theorem c5_bounded_queue_drop_oldest :
    (Broadcast.new).1.tx.capacity = 1024 ∧
    (∀ (ch : Channel) (r pos : Nat),
      ch.receivers[r]? = some (some pos) →
      ch.capacity + pos < ch.history.length →
      (ch.recv r).2 = some (.error (.lagged (ch.history.length - ch.capacity - pos))) ∧
      (ch.recv r).1.receivers[r]? = some (some (ch.history.length - ch.capacity)) ∧
      (ch.recv r).1.history = ch.history ∧
      (∀ q, q ≠ r → (ch.recv r).1.receivers[q]? = ch.receivers[q]?)) ∧
    (∀ (ch : Channel) (r pos : Nat) (hlt : pos < ch.history.length),
      ch.receivers[r]? = some (some pos) →
      ch.history.length - pos ≤ ch.capacity →
      (ch.recv r).2 = some (.ok (ch.history.get ⟨pos, hlt⟩)) ∧
      (ch.recv r).1.receivers[r]? = some (some (pos + 1)) ∧
      (ch.recv r).1.history = ch.history ∧
      (∀ q, q ≠ r → (ch.recv r).1.receivers[q]? = ch.receivers[q]?)) ∧
    (∀ (ch : Channel) (v : BroadcastPayload),
      (ch.send v).1.receivers = ch.receivers ∧ (ch.send v).1.capacity = ch.capacity) := by
  refine ⟨rfl, ?_, ?_, ?_⟩
  · intro ch r pos hr hlag
    have hrlt : r < ch.receivers.length := (List.getElem?_eq_some.mp hr).1
    rw [Channel.recv_lag hr hlag]
    refine ⟨rfl, ?_, rfl, ?_⟩
    · exact List.getElem?_set_self (by simpa using hrlt)
    · intro q hq
      exact List.getElem?_set_ne (Ne.symm hq)
  · intro ch r pos hlt hr hwin
    have hrlt : r < ch.receivers.length := (List.getElem?_eq_some.mp hr).1
    rw [Channel.recv_ok hr hlt hwin]
    refine ⟨rfl, ?_, rfl, ?_⟩
    · exact List.getElem?_set_self (by simpa using hrlt)
    · intro q hq
      exact List.getElem?_set_ne (Ne.symm hq)
  · intro ch v
    by_cases h : ch.liveCount = 0
    · simp [Channel.send, h]
    · simp [Channel.send, h]

/-- C5 witness: a receiver of a capacity-1 channel that is 2 behind lags by 2
and resumes at the oldest retained value; the publisher's send leaves the
cursor list untouched. -/
theorem c5_witness :
    ((Channel.mk 1 [BroadcastPayload.signIn ⟨"a"⟩, BroadcastPayload.signIn ⟨"b"⟩,
        BroadcastPayload.signIn ⟨"c"⟩] [some 0] false).recv 0).2 =
      some (.error (.lagged 2)) ∧
    ((Channel.mk 1 [BroadcastPayload.signIn ⟨"a"⟩, BroadcastPayload.signIn ⟨"b"⟩,
        BroadcastPayload.signIn ⟨"c"⟩] [some 0] false).recv 0).1.receivers[0]? =
      some (some 2) := by
  have h := c5_bounded_queue_drop_oldest.2.1
    (Channel.mk 1 [BroadcastPayload.signIn ⟨"a"⟩, BroadcastPayload.signIn ⟨"b"⟩,
        BroadcastPayload.signIn ⟨"c"⟩] [some 0] false) 0 0 rfl (by decide)
  exact ⟨h.1, h.2.1⟩

theorem Users.mem_add_user_self (u : Users) (user : String) :
    user ∈ (u.add_user user).data := by
  unfold Users.add_user
  by_cases h : user ∈ u.data
  · simp [h]
  · simp [h]

/-- C7: when the publish inside a handler fails (no live receiver on the hub
channel), `signin` and `message_send` report the error to their caller, yet
the registry insert, respectively the log append, has already taken effect
and is not rolled back. -/
theorem c7_publish_fault_keeps_mutation
    (users : Users) (messages : Messages) (b : Broadcast)
    (req : SignInRequest) (mreq : MessageSendRequest)
    (h : b.tx.liveCount = 0) :
    ((signin req users b).2.2 = Except.error ChatError.sendError ∧
      req.user ∈ (signin req users b).1.data) ∧
    ((message_send mreq messages b).2.2 = Except.error ChatError.sendError ∧
      (⟨messages.counter, mreq.user, mreq.message⟩ : MessagePayload) ∈
        (message_send mreq messages b).1.messages) := by
  have hs : (b.sign_in ⟨req.user⟩).2 = Except.error ChatError.sendError := by
    simp [Broadcast.sign_in, Channel.send, h]
  have hm : ∀ p, (b.send_message p).2 = Except.error ChatError.sendError := by
    intro p
    simp [Broadcast.send_message, Channel.send, h]
  refine ⟨⟨?_, ?_⟩, ?_, ?_⟩
  · simp [signin, Broadcast.sign_in, Channel.send, h]
  · simp only [signin]
    simp [Broadcast.sign_in, Channel.send, h, Users.mem_add_user_self]
  · simp [message_send, Messages.send, Messages.fetchIndex, Broadcast.send_message,
      Channel.send, h]
  · simp [message_send, Messages.send, Messages.fetchIndex, Messages.push,
      Broadcast.send_message, Channel.send, h]

/-- C7 witness: a hub whose only receiver was dropped, with concrete
requests. -/
theorem c7_witness :
    ((Broadcast.mk ((Broadcast.new).1.tx.dropReceiver 0)).tx.liveCount = 0) ∧
    (signin ⟨"adam"⟩ Users.new (Broadcast.mk ((Broadcast.new).1.tx.dropReceiver 0))).2.2 =
      Except.error ChatError.sendError ∧
    "adam" ∈ (signin ⟨"adam"⟩ Users.new
      (Broadcast.mk ((Broadcast.new).1.tx.dropReceiver 0))).1.data ∧
    (⟨0, "adam", "hi"⟩ : MessagePayload) ∈
      (message_send ⟨"adam", "hi"⟩ Messages.new
        (Broadcast.mk ((Broadcast.new).1.tx.dropReceiver 0))).1.messages := by
  have h := c7_publish_fault_keeps_mutation Users.new Messages.new
    (Broadcast.mk ((Broadcast.new).1.tx.dropReceiver 0)) ⟨"adam"⟩ ⟨"adam", "hi"⟩ rfl
  exact ⟨rfl, h.1.1, h.1.2, h.2.2⟩

/-- C9: signing in an already-registered user still succeeds (given the hub
can accept, i.e. a receiver is live) and still publishes exactly one `SignIn`
event for this call; the registry is unchanged because the insert is an
idempotent no-op. -/
theorem c9_signin_existing_user_publishes
    (users : Users) (b : Broadcast) (req : SignInRequest)
    (hmem : req.user ∈ users.data) (hlive : 0 < b.tx.liveCount) :
    (signin req users b).2.2 = Except.ok ⟨req.user⟩ ∧
    (signin req users b).1 = users ∧
    (signin req users b).2.1.tx.history =
      b.tx.history ++ [BroadcastPayload.signIn ⟨req.user⟩] := by
  have hne : b.tx.liveCount ≠ 0 := by omega
  have hadd : users.add_user req.user = users := by
    simp [Users.add_user, hmem]
  simp [signin, Broadcast.sign_in, Channel.send_of_live _ hne, hadd]

/-- C9 witness: re-signing-in the already present user `"adam"` on the fresh
hub. -/
theorem c9_witness :
    "adam" ∈ (Users.mk ["adam"]).data ∧
    0 < (Broadcast.new).1.tx.liveCount ∧
    (signin ⟨"adam"⟩ (Users.mk ["adam"]) (Broadcast.new).1).2.2 = Except.ok ⟨"adam"⟩ ∧
    (signin ⟨"adam"⟩ (Users.mk ["adam"]) (Broadcast.new).1).1 = Users.mk ["adam"] ∧
    (signin ⟨"adam"⟩ (Users.mk ["adam"]) (Broadcast.new).1).2.1.tx.history =
      [BroadcastPayload.signIn ⟨"adam"⟩] := by
  have h := c9_signin_existing_user_publishes (Users.mk ["adam"]) (Broadcast.new).1
    ⟨"adam"⟩ (by decide) (by decide)
  exact ⟨by decide, by decide, h.1, h.2.1, h.2.2⟩

theorem sessionRun_terminal (r : Nat) (w : SessionWorld) (st : SessionStatus)
    (hst : st ≠ SessionStatus.active) (bs : List SelectBranch) :
    sessionRun r (w, st) bs = (w, st) := by
  cases bs with
  | nil => rfl
  | cons b bs =>
    cases st with
    | active => exact absurd rfl hst
    | closed => rfl
    | faulted => rfl

theorem sessionStep_hub (w : SessionWorld) (r : Nat) (wr : WriteOutcome) :
    sessionStep w r (SelectBranch.hub wr) =
      ({ w with channel := (w.channel.recv r).1 },
        match (w.channel.recv r).2, wr with
        | some (.ok _), .ok => SessionStatus.active
        | some (.ok _), .failed => SessionStatus.faulted
        | some (.error _), _ => SessionStatus.active
        | none, _ => SessionStatus.active) := by
  unfold sessionStep
  rcases hrec : w.channel.recv r with ⟨ch', res⟩
  rcases res with _ | res
  · rfl
  · rcases res with res | res
    · rfl
    · cases wr <;> rfl

/-- C8: if the outbound write of a received event fails, the session task
ends (the `expect` panic, confined by tokio to this task) and nothing else is
affected: registry, log, hub history and every other subscription cursor are
exactly as before, and the task services no further select outcomes. -/
theorem c8_write_failure_session_only
    (w : SessionWorld) (r : Nat) (bs : List SelectBranch) (p : BroadcastPayload)
    (hok : (w.channel.recv r).2 = some (Except.ok p)) :
    (sessionStep w r (SelectBranch.hub WriteOutcome.failed)).2 = SessionStatus.faulted ∧
    (sessionStep w r (SelectBranch.hub WriteOutcome.failed)).1.users = w.users ∧
    (sessionStep w r (SelectBranch.hub WriteOutcome.failed)).1.messages = w.messages ∧
    (sessionStep w r (SelectBranch.hub WriteOutcome.failed)).1.channel.history =
      w.channel.history ∧
    (∀ q, q ≠ r →
      (sessionStep w r (SelectBranch.hub WriteOutcome.failed)).1.channel.receivers[q]? =
        w.channel.receivers[q]?) ∧
    sessionRun r (sessionStep w r (SelectBranch.hub WriteOutcome.failed)) bs =
      sessionStep w r (SelectBranch.hub WriteOutcome.failed) := by
  rw [sessionStep_hub, hok]
  refine ⟨rfl, rfl, rfl, Channel.recv_history w.channel r, ?_, ?_⟩
  · intro q hq
    exact Channel.recv_receivers_other (Ne.symm hq)
  · exact sessionRun_terminal r _ _ (by simp) bs

/-- C8 witness: a session whose pending event is a sign-in and whose write
fails, with one further select outcome that is then never serviced. -/
theorem c8_witness :
    ((SessionWorld.mk (Channel.mk 2 [BroadcastPayload.signIn ⟨"a"⟩] [some 0] false)
        Users.new Messages.new).channel.recv 0).2 =
      some (Except.ok (BroadcastPayload.signIn ⟨"a"⟩)) ∧
    (sessionStep (SessionWorld.mk (Channel.mk 2 [BroadcastPayload.signIn ⟨"a"⟩] [some 0] false)
        Users.new Messages.new) 0 (SelectBranch.hub WriteOutcome.failed)).2 =
      SessionStatus.faulted := by
  have h := c8_write_failure_session_only
    (SessionWorld.mk (Channel.mk 2 [BroadcastPayload.signIn ⟨"a"⟩] [some 0] false)
      Users.new Messages.new) 0 [SelectBranch.inbound InboundResult.disconnected]
    (BroadcastPayload.signIn ⟨"a"⟩) rfl
  exact ⟨rfl, h.1⟩

/-- C10: `handle_socket` treats every error from `rx.recv()` — `Lagged` as
well as `Closed` — as a logged no-op and keeps looping, and the only select
outcomes that end the loop normally (`return`, the `closed` status) are the
inbound ones: a close frame, a read error, or end of stream. -/
theorem c10_recv_errors_nonfatal
    (w : SessionWorld) (r : Nat) :
    (∀ (e : RecvError) (wr : WriteOutcome),
      (w.channel.recv r).2 = some (Except.error e) →
      (sessionStep w r (SelectBranch.hub wr)).2 = SessionStatus.active) ∧
    (∀ b : SelectBranch,
      (sessionStep w r b).2 = SessionStatus.closed →
      b = SelectBranch.inbound (InboundResult.msg WsIncoming.close) ∨
      b = SelectBranch.inbound InboundResult.readErr ∨
      b = SelectBranch.inbound InboundResult.disconnected) := by
  constructor
  · intro e wr herr
    rw [sessionStep_hub, herr]
  · intro b hcl
    rcases b with wr | i
    · rw [sessionStep_hub] at hcl
      rcases hres : (w.channel.recv r).2 with _ | res
      · rw [hres] at hcl
        exact absurd hcl (by simp)
      · rcases res with res | res
        · rw [hres] at hcl
          exact absurd hcl (by simp)
        · rw [hres] at hcl
          cases wr <;> exact absurd hcl (by simp)
    · rcases i with m | _ | _
      · rcases m with _ | s | _ | _ | _
        · left; rfl
        · exact absurd hcl (by simp [sessionStep])
        · exact absurd hcl (by simp [sessionStep])
        · exact absurd hcl (by simp [sessionStep])
        · exact absurd hcl (by simp [sessionStep])
      · right; left; rfl
      · right; right; rfl

/-- C10 witness: a closed-channel receive error is non-fatal even with the
write poised to fail, on a concrete drained closed channel. -/
theorem c10_witness :
    ((SessionWorld.mk (Channel.mk 2 [] [some 0] true) Users.new Messages.new).channel.recv
        0).2 = some (Except.error RecvError.closed) ∧
    (sessionStep (SessionWorld.mk (Channel.mk 2 [] [some 0] true) Users.new Messages.new)
        0 (SelectBranch.hub WriteOutcome.failed)).2 = SessionStatus.active := by
  have h := (c10_recv_errors_nonfatal
    (SessionWorld.mk (Channel.mk 2 [] [some 0] true) Users.new Messages.new) 0).1
    RecvError.closed WriteOutcome.failed rfl
  exact ⟨rfl, h⟩

theorem Users.mem_add_user {u : Users} {s n : String} :
    s ∈ (u.add_user n).data ↔ s ∈ u.data ∨ s = n := by
  unfold Users.add_user
  by_cases h : n ∈ u.data
  · simp only [h, if_true]
    constructor
    · exact Or.inl
    · rintro (hs | rfl)
      · exact hs
      · exact h
  · simp [h]

theorem Users.add_user_nodup {u : Users} (n : String) (h : u.data.Nodup) :
    (u.add_user n).data.Nodup := by
  unfold Users.add_user
  by_cases hm : n ∈ u.data
  · simpa [hm]
  · simp only [hm, if_false]
    simpa [List.nodup_append] using ⟨h, hm⟩

theorem users_foldl_spec (names : List String) :
    ∀ (u0 : Users), u0.data.Nodup →
      (names.foldl Users.add_user u0).data.Nodup ∧
      (∀ s, s ∈ (names.foldl Users.add_user u0).data ↔ s ∈ u0.data ∨ s ∈ names) := by
  induction names with
  | nil =>
    intro u0 h
    exact ⟨h, fun s => by simp⟩
  | cons n ns ih =>
    intro u0 h
    have hstep := ih (u0.add_user n) (Users.add_user_nodup n h)
    refine ⟨hstep.1, fun s => ?_⟩
    rw [List.foldl_cons] at *
    rw [hstep.2 s, Users.mem_add_user]
    simp only [List.mem_cons]
    tauto

/-- C6: after any sequence of `add_user` calls, duplicates included, `list`
returns each distinct added name exactly once (no duplicates, membership
exactly the added names), sorted ascending in the string order `sort()` uses;
and adding an already-present name is the identity, not an error. -/
theorem c6_users_distinct_sorted (names : List String) :
    ((names.foldl Users.add_user Users.new).list.Nodup ∧
      (∀ s, s ∈ (names.foldl Users.add_user Users.new).list ↔ s ∈ names)) ∧
    List.Sorted (fun a b => strLe a b = true)
      (names.foldl Users.add_user Users.new).list ∧
    (∀ (u : Users) (n : String), n ∈ u.data → u.add_user n = u) := by
  have hspec := users_foldl_spec names Users.new (by simp [Users.new])
  have hperm := List.perm_insertionSort
    (fun a b : String => strLe a b = true) (names.foldl Users.add_user Users.new).data
  refine ⟨⟨hperm.symm.nodup hspec.1, fun s => ?_⟩, ?_, ?_⟩
  · rw [Users.list, hperm.mem_iff, hspec.2 s]
    simp [Users.new]
  · exact List.sorted_insertionSort _ _
  · intro u n hn
    simp [Users.add_user, hn]

/-- C6 witness: adding `"frank"`, `"adam"`, `"adam"` yields a duplicate-free
sorted listing containing `"adam"`, and re-adding a present name is the
identity. -/
theorem c6_witness :
    (["frank", "adam", "adam"].foldl Users.add_user Users.new).list.Nodup ∧
    "adam" ∈ (["frank", "adam", "adam"].foldl Users.add_user Users.new).list ∧
    (Users.mk ["adam"]).add_user "adam" = Users.mk ["adam"] := by
  have h := c6_users_distinct_sorted ["frank", "adam", "adam"]
  exact ⟨h.1.1, (h.1.2 "adam").mpr (by decide), h.2.2 (Users.mk ["adam"]) "adam" (by decide)⟩

theorem mem_drop_of_le {α : Type} {l : List α} {x : α} {pos m : Nat}
    (hle : pos ≤ m) (hx : x ∈ l.drop m) : x ∈ l.drop pos := by
  have heq : l.drop m = (l.drop pos).drop (m - pos) := by
    rw [List.drop_drop]
    congr 1
    omega
  rw [heq] at hx
  exact List.drop_subset _ _ hx

theorem runTrace_spec (r : Nat) (ops : List HubOp) :
    ∀ (ch : Channel) (pos : Nat),
      ch.receivers[r]? = some (some pos) →
      pos ≤ ch.history.length →
      (runTrace r ch ops).1.history = ch.history ++ sentValues ops ∧
      (∀ v, some (Except.ok v) ∈ (runTrace r ch ops).2 →
        v ∈ (ch.history ++ sentValues ops).drop pos) ∧
      (LagFree (runTrace r ch ops).2 →
        oks (runTrace r ch ops).2 =
          ((ch.history ++ sentValues ops).drop pos).take
            (oks (runTrace r ch ops).2).length) := by
  induction ops with
  | nil =>
    intro ch pos hr hpos
    refine ⟨by simp [runTrace, sentValues], ?_, ?_⟩
    · intro v hv
      simp [runTrace] at hv
    · intro _
      simp [runTrace, oks]
  | cons op ops ih =>
    intro ch pos hr hpos
    cases op with
    | send v =>
      have hlive : ch.liveCount ≠ 0 := Channel.liveCount_ne_zero hr
      have hstep : runTrace r ch (HubOp.send v :: ops) =
          runTrace r ({ ch with history := ch.history ++ [v] }) ops := by
        simp only [runTrace, Channel.send_of_live v hlive]
      have happ : (ch.history ++ [v]) ++ sentValues ops =
          ch.history ++ sentValues (HubOp.send v :: ops) := by
        rw [List.append_assoc]
        rfl
      have hih := ih ({ ch with history := ch.history ++ [v] }) pos hr
        (by simp only [List.length_append]; omega)
      rw [hstep]
      refine ⟨?_, ?_, ?_⟩
      · rw [hih.1]
        exact happ
      · intro w hw
        have := hih.2.1 w hw
        rwa [happ] at this
      · intro hlf
        have := hih.2.2 hlf
        rwa [happ] at this
    | recv q =>
      have hsv : sentValues (HubOp.recv q :: ops) = sentValues ops := rfl
      rw [hsv]
      by_cases hq : q = r
      · subst hq
        by_cases hlt : pos < ch.history.length
        · by_cases hlag : ch.capacity < ch.history.length - pos
          · have hrecv := Channel.recv_lag hr (by omega)
            have hrlt : q < ch.receivers.length := (List.getElem?_eq_some.mp hr).1
            have hstep : runTrace q ch (HubOp.recv q :: ops) =
                ((runTrace q
                    ({ ch with receivers :=
                        ch.receivers.set q (some (ch.history.length - ch.capacity)) }) ops).1,
                  some (.error (.lagged (ch.history.length - ch.capacity - pos))) ::
                    (runTrace q
                      ({ ch with receivers :=
                          ch.receivers.set q (some (ch.history.length - ch.capacity)) }) ops).2) := by
              simp [runTrace, hrecv]
            have hih := ih
              ({ ch with receivers :=
                  ch.receivers.set q (some (ch.history.length - ch.capacity)) })
              (ch.history.length - ch.capacity)
              (List.getElem?_set_self (by simpa using hrlt))
              (by simp)
            rw [hstep]
            refine ⟨hih.1, ?_, ?_⟩
            · intro w hw
              rcases List.mem_cons.mp hw with hhd | htl
              · exact absurd hhd (by simp)
              · exact mem_drop_of_le (by omega) (hih.2.1 w htl)
            · intro hlf
              exact absurd (List.mem_cons_self _ _)
                (hlf (ch.history.length - ch.capacity - pos))
          · have hrecv := Channel.recv_ok hr hlt (by omega)
            have hrlt : q < ch.receivers.length := (List.getElem?_eq_some.mp hr).1
            have hstep : runTrace q ch (HubOp.recv q :: ops) =
                ((runTrace q
                    ({ ch with receivers := ch.receivers.set q (some (pos + 1)) }) ops).1,
                  some (.ok (ch.history.get ⟨pos, hlt⟩)) ::
                    (runTrace q
                      ({ ch with receivers := ch.receivers.set q (some (pos + 1)) }) ops).2) := by
              simp [runTrace, hrecv]
            have hih := ih ({ ch with receivers := ch.receivers.set q (some (pos + 1)) })
              (pos + 1)
              (List.getElem?_set_self (by simpa using hrlt))
              (by simpa using hlt)
            have hposfull : pos < (ch.history ++ sentValues ops).length := by
              simp only [List.length_append]
              omega
            have hgetfull : (ch.history ++ sentValues ops)[pos] = ch.history.get ⟨pos, hlt⟩ := by
              rw [List.getElem_append_left hlt]
              rfl
            rw [hstep]
            refine ⟨hih.1, ?_, ?_⟩
            · intro w hw
              rcases List.mem_cons.mp hw with hhd | htl
              · have hwv : w = ch.history.get ⟨pos, hlt⟩ := by
                  simpa using hhd
                rw [List.drop_eq_getElem_cons hposfull, hgetfull, hwv]
                exact List.mem_cons_self _ _
              · have := hih.2.1 w htl
                rw [List.drop_eq_getElem_cons hposfull]
                exact List.mem_cons_of_mem _ this
            · intro hlf
              have hlf' : LagFree (runTrace q
                  ({ ch with receivers := ch.receivers.set q (some (pos + 1)) }) ops).2 :=
                fun n hn => hlf n (List.mem_cons_of_mem _ hn)
              have hoks : oks (some (.ok (ch.history.get ⟨pos, hlt⟩)) ::
                  (runTrace q
                    ({ ch with receivers := ch.receivers.set q (some (pos + 1)) }) ops).2) =
                  ch.history.get ⟨pos, hlt⟩ ::
                    oks (runTrace q
                      ({ ch with receivers := ch.receivers.set q (some (pos + 1)) }) ops).2 := rfl
              rw [hoks, List.drop_eq_getElem_cons hposfull, List.length_cons,
                List.take_succ_cons, hgetfull, ← hih.2.2 hlf']
        · by_cases hcl : ch.senderClosed = true
          · have hrecv := Channel.recv_closed hr hlt hcl
            have hstep : runTrace q ch (HubOp.recv q :: ops) =
                ((runTrace q ch ops).1,
                  some (.error RecvError.closed) :: (runTrace q ch ops).2) := by
              simp [runTrace, hrecv]
            have hih := ih ch pos hr hpos
            rw [hstep]
            refine ⟨hih.1, ?_, ?_⟩
            · intro w hw
              rcases List.mem_cons.mp hw with hhd | htl
              · exact absurd hhd (by simp)
              · exact hih.2.1 w htl
            · intro hlf
              exact hih.2.2 fun n hn => hlf n (List.mem_cons_of_mem _ hn)
          · have hrecv := Channel.recv_pending hr hlt (by simpa using hcl)
            have hstep : runTrace q ch (HubOp.recv q :: ops) =
                ((runTrace q ch ops).1, none :: (runTrace q ch ops).2) := by
              simp [runTrace, hrecv]
            have hih := ih ch pos hr hpos
            rw [hstep]
            refine ⟨hih.1, ?_, ?_⟩
            · intro w hw
              rcases List.mem_cons.mp hw with hhd | htl
              · exact absurd hhd (by simp)
              · exact hih.2.1 w htl
            · intro hlf
              exact hih.2.2 fun n hn => hlf n (List.mem_cons_of_mem _ hn)
      · have hh : (ch.recv q).1.history = ch.history := Channel.recv_history ch q
        have hrr : (ch.recv q).1.receivers[r]? = ch.receivers[r]? :=
          Channel.recv_receivers_other hq
        have hstep : runTrace r ch (HubOp.recv q :: ops) = runTrace r (ch.recv q).1 ops := by
          rcases hrec : ch.recv q with ⟨ch', res⟩
          simp only [runTrace, hrec, if_neg hq]
        have hih := ih (ch.recv q).1 pos (by rw [hrr]; exact hr) (by rw [hh]; exact hpos)
        rw [hstep]
        refine ⟨by rw [hih.1, hh], ?_, ?_⟩
        · intro w hw
          have := hih.2.1 w hw
          rwa [hh] at this
        · intro hlf
          have := hih.2.2 hlf
          rwa [hh] at this

/-- C4: a subscriber created by `subscribe` observes only events published
after its subscription (no replay of prior history), and — as long as it
never lags — the values it successfully receives are exactly a leading
segment of the subsequently published values, in publish order and each
exactly once; a subscriber that consumes them all has received precisely the
published sequence. -/
theorem c4_subscribe_no_replay_in_order (ch : Channel) (ops : List HubOp) :
    (∀ v, some (Except.ok v) ∈ (runTrace (ch.subscribe).2 (ch.subscribe).1 ops).2 →
      v ∈ sentValues ops) ∧
    (LagFree (runTrace (ch.subscribe).2 (ch.subscribe).1 ops).2 →
      oks (runTrace (ch.subscribe).2 (ch.subscribe).1 ops).2 =
        (sentValues ops).take
          (oks (runTrace (ch.subscribe).2 (ch.subscribe).1 ops).2).length) ∧
    (LagFree (runTrace (ch.subscribe).2 (ch.subscribe).1 ops).2 →
      (oks (runTrace (ch.subscribe).2 (ch.subscribe).1 ops).2).length =
        (sentValues ops).length →
      oks (runTrace (ch.subscribe).2 (ch.subscribe).1 ops).2 = sentValues ops) := by
  have hr : (ch.subscribe).1.receivers[(ch.subscribe).2]? =
      some (some ch.history.length) := by
    simp only [Channel.subscribe]
    exact List.getElem?_concat_length _ _
  have hpos : ch.history.length ≤ (ch.subscribe).1.history.length := by
    simp [Channel.subscribe]
  have h := runTrace_spec (ch.subscribe).2 ops (ch.subscribe).1 ch.history.length hr hpos
  have hdrop : ((ch.subscribe).1.history ++ sentValues ops).drop ch.history.length =
      sentValues ops := by
    have : (ch.subscribe).1.history = ch.history := rfl
    rw [this]
    exact List.drop_left _ _
  refine ⟨?_, ?_, ?_⟩
  · intro v hv
    have := h.2.1 v hv
    rwa [hdrop] at this
  · intro hlf
    have := h.2.2 hlf
    rwa [hdrop] at this
  · intro hlf hlen
    have := h.2.2 hlf
    rw [hdrop] at this
    rw [this, hlen, List.take_length]

/-- C4 witness: on the fresh hub, a new subscriber receiving after each of
two publishes observes exactly the two published events in publish order. -/
theorem c4_witness :
    oks (runTrace ((Broadcast.new).1.tx.subscribe).2 ((Broadcast.new).1.tx.subscribe).1
        [HubOp.send (BroadcastPayload.signIn ⟨"adam"⟩), HubOp.recv 1,
         HubOp.send (BroadcastPayload.message ⟨0, "adam", "hi"⟩), HubOp.recv 1]).2 =
      sentValues
        [HubOp.send (BroadcastPayload.signIn ⟨"adam"⟩), HubOp.recv 1,
         HubOp.send (BroadcastPayload.message ⟨0, "adam", "hi"⟩), HubOp.recv 1] := by
  have h := (c4_subscribe_no_replay_in_order (Broadcast.new).1.tx
    [HubOp.send (BroadcastPayload.signIn ⟨"adam"⟩), HubOp.recv 1,
     HubOp.send (BroadcastPayload.message ⟨0, "adam", "hi"⟩), HubOp.recv 1]).2.2
  apply h
  · intro n hn
    have houts : (runTrace ((Broadcast.new).1.tx.subscribe).2
        ((Broadcast.new).1.tx.subscribe).1
        [HubOp.send (BroadcastPayload.signIn ⟨"adam"⟩), HubOp.recv 1,
         HubOp.send (BroadcastPayload.message ⟨0, "adam", "hi"⟩), HubOp.recv 1]).2 =
        [some (Except.ok (BroadcastPayload.signIn ⟨"adam"⟩)),
         some (Except.ok (BroadcastPayload.message ⟨0, "adam", "hi"⟩))] := rfl
    rw [houts] at hn
    simp at hn
  · rfl

theorem Exec.step_fetched_mono {calls : List MessageSendRequest} {e : Exec} {i v : Nat}
    (h : e.fetched i = some v) (a : Act) : (e.step calls a).fetched i = some v := by
  cases a with
  | fetch j =>
    rcases hj : e.fetched j with _ | w
    · by_cases hij : i = j
      · subst hij
        rw [h] at hj
        exact absurd hj (by simp)
      · simp [Exec.step, hj, hij, h]
    · simp [Exec.step, hj, h]
  | push j =>
    rcases hf : e.fetched j with _ | w <;>
      rcases hp : e.pushed j <;>
      rcases hc : calls[j]? with _ | c <;>
      simp [Exec.step, hf, hp, hc, h]

theorem Exec.run_fetched_mono {calls : List MessageSendRequest} {i v : Nat} :
    ∀ (acts : List Act) (e : Exec), e.fetched i = some v →
      (Exec.run calls e acts).fetched i = some v := by
  intro acts
  induction acts with
  | nil => intro e h; exact h
  | cons a acts ih =>
    intro e h
    exact ih _ (Exec.step_fetched_mono h a)

theorem Exec.run_spec (calls : List MessageSendRequest) :
    ∀ (acts : List Act) (e : Exec),
      (fetchIds acts).Nodup →
      (pushIds acts).Nodup →
      (∀ i ∈ fetchIds acts, e.fetched i = none) →
      (∀ i ∈ pushIds acts, e.pushed i = false) →
      (∀ i ∈ pushIds acts, i < calls.length) →
      (∀ (k i : Nat), acts[k]? = some (Act.push i) →
        (∃ j : Nat, j < k ∧ acts[j]? = some (Act.fetch i)) ∨ e.fetched i ≠ none) →
      (Exec.run calls e acts).log.counter = e.log.counter + (fetchIds acts).length ∧
      (∀ (k i : Nat), (fetchIds acts)[k]? = some i →
        (Exec.run calls e acts).fetched i = some (e.log.counter + k)) ∧
      (∀ i, i ∉ fetchIds acts → (Exec.run calls e acts).fetched i = e.fetched i) ∧
      (Exec.run calls e acts).log.messages =
        e.log.messages ++
          (pushIds acts).map (callPayload calls (Exec.run calls e acts).fetched) := by
  intro acts
  induction acts with
  | nil =>
    intro e _ _ _ _ _ _
    refine ⟨by simp [Exec.run, fetchIds], ?_, ?_, by simp [Exec.run, pushIds]⟩
    · intro k i hk
      simp [fetchIds] at hk
    · intro i _
      simp [Exec.run]
  | cons a acts ih =>
    intro e h1 h2 h3 h4 h5 h6
    cases a with
    | fetch i =>
      have hfidcons : fetchIds (Act.fetch i :: acts) = i :: fetchIds acts := rfl
      have hpidcons : pushIds (Act.fetch i :: acts) = pushIds acts := rfl
      rw [hfidcons] at h1 h3
      rw [hpidcons] at h2 h4 h5
      have hfi : e.fetched i = none := h3 i (List.mem_cons_self _ _)
      have hnotin : i ∉ fetchIds acts := (List.nodup_cons.mp h1).1
      have hstep : e.step calls (Act.fetch i) =
          ⟨{ e.log with counter := e.log.counter + 1 },
            fun j => if j = i then some e.log.counter else e.fetched j,
            e.pushed⟩ := by
        simp [Exec.step, hfi, Messages.fetchIndex]
      have hrun : Exec.run calls e (Act.fetch i :: acts) =
          Exec.run calls
            ⟨{ e.log with counter := e.log.counter + 1 },
              fun j => if j = i then some e.log.counter else e.fetched j,
              e.pushed⟩ acts := by
        rw [Exec.run, hstep]
      have hIH := ih
        ⟨{ e.log with counter := e.log.counter + 1 },
          fun j => if j = i then some e.log.counter else e.fetched j,
          e.pushed⟩
        (List.nodup_cons.mp h1).2 h2
        (by
          intro j hj
          have hji : j ≠ i := fun hji => hnotin (hji ▸ hj)
          simp only [hji, if_false]
          exact h3 j (List.mem_cons_of_mem _ hj))
        h4 h5
        (by
          intro k j hk
          rcases h6 (k + 1) j (by simpa using hk) with ⟨j', hj'k, hj'⟩ | hne
          · cases j' with
            | zero =>
              simp only [List.getElem?_cons_zero] at hj'
              have : i = j := by
                injection hj' with hj''
                injection hj''
              right
              subst this
              simp
            | succ m =>
              left
              refine ⟨m, by omega, ?_⟩
              simpa using hj'
          · right
            by_cases hji : j = i
            · simp [hji]
            · simpa [hji] using hne)
      rw [hfidcons, hpidcons, hrun]
      have hcnt : (Exec.run calls
          ⟨{ e.log with counter := e.log.counter + 1 },
            fun j => if j = i then some e.log.counter else e.fetched j,
            e.pushed⟩ acts).log.counter =
          e.log.counter + 1 + (fetchIds acts).length := hIH.1
      refine ⟨?_, ?_, ?_, ?_⟩
      · rw [hcnt]
        simp only [List.length_cons]
        omega
      · intro k j hk
        cases k with
        | zero =>
          simp only [List.getElem?_cons_zero] at hk
          injection hk with hk
          subst hk
          have := hIH.2.2.1 i hnotin
          rw [this]
          simp
        | succ m =>
          simp only [List.getElem?_cons_succ] at hk
          have := hIH.2.1 m j hk
          rw [this]
          have harith : e.log.counter + 1 + m = e.log.counter + (m + 1) := by omega
          simp [harith]
      · intro j hj
        have hji : j ≠ i := fun hji => hj (hji ▸ List.mem_cons_self _ _)
        have := hIH.2.2.1 j (fun hm => hj (List.mem_cons_of_mem _ hm))
        rw [this]
        simp [hji]
      · exact hIH.2.2.2
    | push i =>
      have hfidcons : fetchIds (Act.push i :: acts) = fetchIds acts := rfl
      have hpidcons : pushIds (Act.push i :: acts) = i :: pushIds acts := rfl
      rw [hfidcons] at h1 h3
      rw [hpidcons] at h2 h4 h5
      have hp : e.pushed i = false := h4 i (List.mem_cons_self _ _)
      have hplt : i < calls.length := h5 i (List.mem_cons_self _ _)
      have hcall : calls[i]? = some calls[i] := List.getElem?_eq_some.mpr ⟨hplt, rfl⟩
      have hfetched : ∃ idx, e.fetched i = some idx := by
        rcases h6 0 i (by simp) with ⟨j, hj0, _⟩ | hne
        · omega
        · exact Option.ne_none_iff_exists'.mp hne
      obtain ⟨idx, hidx⟩ := hfetched
      have hnotin : i ∉ pushIds acts := (List.nodup_cons.mp h2).1
      have hstep : e.step calls (Act.push i) =
          ⟨e.log.push ⟨idx, calls[i].user, calls[i].message⟩,
            e.fetched,
            fun j => if j = i then true else e.pushed j⟩ := by
        simp [Exec.step, hidx, hp, hcall]
      have hrun : Exec.run calls e (Act.push i :: acts) =
          Exec.run calls
            ⟨e.log.push ⟨idx, calls[i].user, calls[i].message⟩,
              e.fetched,
              fun j => if j = i then true else e.pushed j⟩ acts := by
        rw [Exec.run, hstep]
      have hIH := ih
        ⟨e.log.push ⟨idx, calls[i].user, calls[i].message⟩,
          e.fetched,
          fun j => if j = i then true else e.pushed j⟩
        h1 (List.nodup_cons.mp h2).2 h3
        (by
          intro j hj
          have hji : j ≠ i := fun hji => hnotin (hji ▸ hj)
          simp only [hji, if_false]
          exact h4 j (List.mem_cons_of_mem _ hj))
        (fun j hj => h5 j (List.mem_cons_of_mem _ hj))
        (by
          intro k j hk
          rcases h6 (k + 1) j (by simpa using hk) with ⟨j', hj'k, hj'⟩ | hne
          · cases j' with
            | zero =>
              simp only [List.getElem?_cons_zero] at hj'
              exact absurd hj' (by simp)
            | succ m =>
              left
              refine ⟨m, by omega, ?_⟩
              simpa using hj'
          · right
            exact hne)
      rw [hfidcons, hpidcons, hrun]
      have hmono : (Exec.run calls
          ⟨e.log.push ⟨idx, calls[i].user, calls[i].message⟩,
            e.fetched,
            fun j => if j = i then true else e.pushed j⟩ acts).fetched i = some idx :=
        Exec.run_fetched_mono acts _ hidx
      refine ⟨hIH.1, hIH.2.1, hIH.2.2.1, ?_⟩
      · rw [hIH.2.2.2]
        have hpayload : callPayload calls
            (Exec.run calls
              ⟨e.log.push ⟨idx, calls[i].user, calls[i].message⟩,
                e.fetched,
                fun j => if j = i then true else e.pushed j⟩ acts).fetched i =
            ⟨idx, calls[i].user, calls[i].message⟩ := by
          simp only [callPayload, hmono, hcall, Option.getD_some]
        rw [List.map_cons, hpayload]
        simp [Messages.push]

/-- Final state of N concurrent `Messages::send` calls executed under an
arbitrary schedule, starting from a log holding `ms` with counter `c0`. -/
def schedRun (calls : List MessageSendRequest) (ms : List MessagePayload) (c0 : Nat)
    (acts : List Act) : Exec :=
  Exec.run calls (Exec.init ⟨ms, c0⟩) acts

theorem exec_sched_spec (calls : List MessageSendRequest) (acts : List Act)
    (c0 : Nat) (ms : List MessagePayload)
    (hf : (fetchIds acts).Perm (List.range calls.length))
    (hp : (pushIds acts).Perm (List.range calls.length))
    (ho : FetchFirst acts) :
    ((List.range calls.length).map
        (fun i => ((schedRun calls ms c0 acts).fetched i).getD 0)).Perm
      ((List.range calls.length).map (fun k => c0 + k)) ∧
    (schedRun calls ms c0 acts).log.messages =
      ms ++ (pushIds acts).map (callPayload calls (schedRun calls ms c0 acts).fetched) ∧
    (schedRun calls ms c0 acts).log.list.Perm
      (ms ++ (List.range calls.length).map
        (callPayload calls (schedRun calls ms c0 acts).fetched)) := by
  have hfd : (fetchIds acts).Nodup := hf.symm.nodup (List.nodup_range _)
  have hpd : (pushIds acts).Nodup := hp.symm.nodup (List.nodup_range _)
  have hspec := Exec.run_spec calls acts (Exec.init ⟨ms, c0⟩) hfd hpd
    (fun _ _ => rfl) (fun _ _ => rfl)
    (fun i hi => List.mem_range.mp (hp.mem_iff.mp hi))
    (fun k i hk => Or.inl (ho k i hk))
  have hlen : (fetchIds acts).length = calls.length := by
    rw [hf.length_eq, List.length_range]
  have hmap : (fetchIds acts).map
      (fun i => ((schedRun calls ms c0 acts).fetched i).getD 0) =
      (List.range calls.length).map (fun k => c0 + k) := by
    apply List.ext_getElem?
    intro n
    rcases hn : (fetchIds acts)[n]? with _ | i
    · have hlenle : calls.length ≤ n := by
        rw [← hlen]
        exact List.getElem?_eq_none_iff.mp hn
      rw [List.getElem?_map, hn, List.getElem?_map,
        List.getElem?_eq_none (by simpa using hlenle)]
      rfl
    · have hnlt : n < calls.length := by
        rw [← hlen]
        exact (List.getElem?_eq_some.mp hn).1
      have hfet := hspec.2.1 n i hn
      rw [List.getElem?_map, hn, List.getElem?_map, List.getElem?_range hnlt]
      show some (((Exec.run calls (Exec.init ⟨ms, c0⟩) acts).fetched i).getD 0) =
        some (c0 + n)
      rw [hfet]
      rfl
  have hmsg : (schedRun calls ms c0 acts).log.messages =
      ms ++ (pushIds acts).map (callPayload calls (schedRun calls ms c0 acts).fetched) :=
    hspec.2.2.2
  refine ⟨?_, hmsg, ?_⟩
  · have h1 := (hf.symm.map
      (fun i => ((schedRun calls ms c0 acts).fetched i).getD 0))
    rw [hmap] at h1
    exact h1
  · have hperm1 : (schedRun calls ms c0 acts).log.list.Perm
        (schedRun calls ms c0 acts).log.messages :=
      List.perm_insertionSort _ _
    have h3 : (ms ++ (pushIds acts).map
          (callPayload calls (schedRun calls ms c0 acts).fetched)).Perm
        (ms ++ (List.range calls.length).map
          (callPayload calls (schedRun calls ms c0 acts).fetched)) :=
      List.Perm.append_left ms (hp.map _)
    have h4 : (schedRun calls ms c0 acts).log.messages.Perm
        (ms ++ (List.range calls.length).map
          (callPayload calls (schedRun calls ms c0 acts).fetched)) := by
      rw [hmsg]
      exact h3
    exact hperm1.trans h4

/-- C1: claimed that at every point the stored message sequence is ordered by
ascending index regardless of the interleaving of concurrent `send` calls. It
is not: the `fetch_add` of the index and the `push` under the write lock are
two separate atomic steps, so the interleaving fetch 0, fetch 1, push 1,
push 0 of two concurrent calls leaves the stored vector with indices
`[1, 0]`, which is not ascending. -/
theorem c1_counterexample :
    (fetchIds [Act.fetch 0, Act.fetch 1, Act.push 1, Act.push 0]).Perm (List.range 2) ∧
    (pushIds [Act.fetch 0, Act.fetch 1, Act.push 1, Act.push 0]).Perm (List.range 2) ∧
    FetchFirst [Act.fetch 0, Act.fetch 1, Act.push 1, Act.push 0] ∧
    ((schedRun [⟨"adam", "hi"⟩, ⟨"frank", "yo"⟩] [] 0
        [Act.fetch 0, Act.fetch 1, Act.push 1, Act.push 0]).log.messages.map
      MessagePayload.index) = [1, 0] ∧
    ¬ List.Sorted (fun a b : Nat => a ≤ b) [1, 0] :=
  ⟨by decide, by decide, fetchFirst_of_fetchFirstB _ (by decide), rfl, by decide⟩

/-- C1 (amended): the index counter itself is atomic (`fetch_add`), so under
any interleaving of N concurrent `send` calls the assigned indices are
distinct; but index assignment and vector insertion are separate atomic
steps, so the stored vector is in push-completion order, which need not be
index order; `list()` restores index order by sorting at read time. -/
theorem c1_amended_counter_atomic_not_insert (calls : List MessageSendRequest)
    (acts : List Act) (c0 : Nat) (ms : List MessagePayload)
    (hf : (fetchIds acts).Perm (List.range calls.length))
    (hp : (pushIds acts).Perm (List.range calls.length))
    (ho : FetchFirst acts) :
    ((List.range calls.length).map
      (fun i => ((schedRun calls ms c0 acts).fetched i).getD 0)).Nodup ∧
    (schedRun calls ms c0 acts).log.messages =
      ms ++ (pushIds acts).map (callPayload calls (schedRun calls ms c0 acts).fetched) ∧
    List.Sorted (fun a b : MessagePayload => a.index ≤ b.index)
      (schedRun calls ms c0 acts).log.list := by
  have h := exec_sched_spec calls acts c0 ms hf hp ho
  refine ⟨?_, h.2.1, List.sorted_insertionSort _ _⟩
  have htarget : ((List.range calls.length).map (fun k => c0 + k)).Nodup :=
    (List.nodup_range _).map (add_right_injective c0)
  exact h.1.symm.nodup htarget

/-- C1 witness: the in-order interleaving of two concurrent sends. -/
theorem c1_witness :
    ((List.range 2).map
      (fun i => ((schedRun [⟨"adam", "hi"⟩, ⟨"frank", "yo"⟩] [] 0
        [Act.fetch 0, Act.push 0, Act.fetch 1, Act.push 1]).fetched i).getD 0)).Nodup ∧
    List.Sorted (fun a b : MessagePayload => a.index ≤ b.index)
      (schedRun [⟨"adam", "hi"⟩, ⟨"frank", "yo"⟩] [] 0
        [Act.fetch 0, Act.push 0, Act.fetch 1, Act.push 1]).log.list := by
  have h := c1_amended_counter_atomic_not_insert [⟨"adam", "hi"⟩, ⟨"frank", "yo"⟩]
    [Act.fetch 0, Act.push 0, Act.fetch 1, Act.push 1] 0 []
    (by decide) (by decide) (fetchFirst_of_fetchFirstB _ (by decide))
  exact ⟨h.1, h.2.2⟩

/-- C3: under any interleaving of N concurrent `send` calls on a log with
counter `c0`, the N returned indices are exactly `[c0, c0 + N)` — distinct
and contiguous — and `list()` afterwards returns, beyond the prior contents,
the N messages ordered by ascending index, each carrying the index its call
received together with that call's user and text. -/
theorem c3_concurrent_sends_contiguous (calls : List MessageSendRequest)
    (acts : List Act) (c0 : Nat) (ms : List MessagePayload)
    (hf : (fetchIds acts).Perm (List.range calls.length))
    (hp : (pushIds acts).Perm (List.range calls.length))
    (ho : FetchFirst acts) :
    ((List.range calls.length).map
        (fun i => ((schedRun calls ms c0 acts).fetched i).getD 0)).Perm
      ((List.range calls.length).map (fun k => c0 + k)) ∧
    List.Sorted (fun a b : MessagePayload => a.index ≤ b.index)
      (schedRun calls ms c0 acts).log.list ∧
    (schedRun calls ms c0 acts).log.list.Perm
      (ms ++ (List.range calls.length).map
        (callPayload calls (schedRun calls ms c0 acts).fetched)) := by
  have h := exec_sched_spec calls acts c0 ms hf hp ho
  exact ⟨h.1, List.sorted_insertionSort _ _, h.2.2⟩

/-- C3 witness: two concurrent sends from a fresh log under an interleaved
schedule receive indices 0 and 1 and `list()` returns both payloads sorted. -/
theorem c3_witness :
    ((List.range 2).map
        (fun i => ((schedRun [⟨"adam", "hi"⟩, ⟨"frank", "yo"⟩] [] 0
          [Act.fetch 0, Act.fetch 1, Act.push 0, Act.push 1]).fetched i).getD 0)).Perm
      ((List.range 2).map (fun k => 0 + k)) ∧
    (schedRun [⟨"adam", "hi"⟩, ⟨"frank", "yo"⟩] [] 0
        [Act.fetch 0, Act.fetch 1, Act.push 0, Act.push 1]).log.list.Perm
      ([] ++ (List.range 2).map
        (callPayload [⟨"adam", "hi"⟩, ⟨"frank", "yo"⟩]
          (schedRun [⟨"adam", "hi"⟩, ⟨"frank", "yo"⟩] [] 0
            [Act.fetch 0, Act.fetch 1, Act.push 0, Act.push 1]).fetched)) := by
  have h := c3_concurrent_sends_contiguous [⟨"adam", "hi"⟩, ⟨"frank", "yo"⟩]
    [Act.fetch 0, Act.fetch 1, Act.push 0, Act.push 1] 0 []
    (by decide) (by decide) (fetchFirst_of_fetchFirstB _ (by decide))
  exact ⟨h.1, h.2.2⟩

end Chat
